import Mathlib

/-!
Verification development for the `azvcutter` video-cutting library
(`src/azvcutter/azvcutter_lib.py`).

The library shells out to an external `ffmpeg` binary.  We embed:

* the keep-range inversion performed inside `cut_video` (lines 115-120),
  written polymorphically over the timestamp type so that the very same
  algorithm can be run on the literal timestamp strings (as the code does)
  and on an abstract numeric timeline (`WithTop ℕ`) where the
  complement-of-union contract can be stated;
* the output-path derivations (`os.path.splitext`, `str.rsplit('.', 1)`);
* the ffmpeg argument-list construction for segment extraction, including
  Python's `list.remove` (first occurrence) used to drop the `-to` flag;
* the observable control flow of the four library functions
  (`apply_video_effect`, `cut_video`, `extract_sub_video`, `merge_videos`)
  as trace-producing functions over an environment that answers
  `shutil.which`, `os.path.isfile` and subprocess exit codes.
-/

namespace AzVCutter

/-! ### Keep-range inversion (`cut_video`, lines 115-120)

The Python loop

```
keep_ranges = []
if cutoff_ranges[0][0] != '00:00:00.00':
    keep_ranges.append(('00:00:00.00', cutoff_ranges[0][0]))
for i in range(len(cutoff_ranges)):
    if cutoff_ranges[i][1] != 'inf':
        keep_ranges.append((cutoff_ranges[i][1],
            'inf' if i == len(cutoff_ranges) - 1 else cutoff_ranges[i+1][0]))
```

is expressed recursively: the loop body at index `i` looks only at element
`i` (`(_, b)`) and at the start of element `i+1` (the head of `rest`,
`inf` when `i` is the last index).  `zeroT` stands for the literal
`'00:00:00.00'` and `infT` for the literal `'inf'`. -/

/-- The `for i in range(len(cutoff_ranges))` loop of `cut_video`: for each
cutoff `(_, b)` with `b ≠ infT`, emit `(b, next start)` where the next
start is `infT` for the last element. -/
def keepTail {α : Type} [DecidableEq α] (infT : α) : List (α × α) → List (α × α)
  | [] => []
  | (_, b) :: rest =>
      let nextStart : α := match rest with
        | [] => infT
        | (a2, _) :: _ => a2
      (if b ≠ infT then [(b, nextStart)] else []) ++ keepTail infT rest

/-- The full keep-range inversion of `cut_video` (lines 115-120): a leading
range `(zeroT, first start)` when the first cutoff does not start at
`zeroT`, followed by the loop `keepTail`.  On the empty list `cut_video`
raises `IndexError` at `cutoff_ranges[0][0]`; the claims only concern
non-empty cutoff lists, where this function agrees with the code. -/
def keep_ranges {α : Type} [DecidableEq α] (zeroT infT : α)
    (cutoff_ranges : List (α × α)) : List (α × α) :=
  match cutoff_ranges with
  | [] => []
  | (a1, _) :: _ =>
      (if a1 ≠ zeroT then [(zeroT, a1)] else []) ++ keepTail infT cutoff_ranges

/-- The keep-range inversion exactly as `cut_video` runs it, on timestamp
strings with the literal sentinels `'00:00:00.00'` and `'inf'`. -/
def cut_keep_ranges (cutoff_ranges : List (String × String)) :
    List (String × String) :=
  keep_ranges "00:00:00.00" "inf" cutoff_ranges

/-! ### Abstract timeline semantics

Timestamps are modelled as `WithTop ℕ` (`⊤` = the `'inf'` sentinel /
end of video).  A range `(s, e)` covers the half-open interval `[s, e)`;
instants are natural numbers. -/

/-- The set of instants covered by one time range, half-open `[start, end)`. -/
def rangeSet (r : WithTop ℕ × WithTop ℕ) : Set ℕ :=
  {t | r.1 ≤ (t : WithTop ℕ) ∧ (t : WithTop ℕ) < r.2}

/-- The set of instants covered by a list of time ranges. -/
def rangesUnion : List (WithTop ℕ × WithTop ℕ) → Set ℕ
  | [] => ∅
  | r :: rs => rangeSet r ∪ rangesUnion rs

/-! ### Path splitting

`apply_video_effect` and `extract_sub_video` use `os.path.splitext`;
`cut_video` uses `video_path.rsplit('.', 1)` and unpacks the result into
two variables (a `ValueError` when the path holds no dot).  Both split at
the last occurrence of a character, so we model that primitive first,
over `List Char`. -/

/-- Split a list at the LAST occurrence of `c`: `splitLast c l = some (a, b)`
means `l = a ++ c :: b` with `c ∉ b`; `none` when `c ∉ l`. -/
def splitLast (c : Char) : List Char → Option (List Char × List Char)
  | [] => none
  | x :: xs =>
      match splitLast c xs with
      | some (a, b) => some (x :: a, b)
      | none => if x = c then some ([], xs) else none

/-- `str.rsplit(c, 1)` when it yields two pieces; `none` when `c` does not
occur (Python then returns a one-element list and the two-variable
unpacking in `cut_video` raises `ValueError`). -/
def rsplit1 (c : Char) (s : String) : Option (String × String) :=
  (splitLast c s.toList).map fun p => (String.mk p.1, String.mk p.2)

/-- The part of `l` after its last `'/'` (all of `l` when there is none):
the basename portion used by `os.path.splitext`'s all-dots check. -/
def afterLastSep (l : List Char) : List Char :=
  match splitLast '/' l with
  | none => l
  | some (_, aft) => aft

/-- CPython `posixpath.splitext` (`genericpath._splitext` with `sep='/'`,
no `altsep`, `extsep='.'`): split at the last dot provided it lies after
the last separator and the basename is not entirely dots up to it. -/
def splitextL (p : List Char) : List Char × List Char :=
  match splitLast '.' p with
  | none => (p, [])
  | some (bef, aft) =>
      if '/' ∈ aft then (p, [])
      else if (afterLastSep bef).all (fun ch => ch = '.') then (p, [])
      else (bef, '.' :: aft)

/-- `os.path.splitext` on strings. -/
def splitext (p : String) : String × String :=
  ((splitextL p.toList).1.asString, (splitextL p.toList).2.asString)

/-- `apply_video_effect` line 75-76: `f"{path_without_extension}_{operation}{video_extension_with_dot}"`. -/
def effect_output_path (video_path operation : String) : String :=
  (splitext video_path).1 ++ "_" ++ operation ++ (splitext video_path).2

/-- `extract_sub_video` lines 177-178: `f"{filename}_sub{file_extension}"`
with `os.path.splitext`. -/
def sub_output_path (source_video_path : String) : String :=
  (splitext source_video_path).1 ++ "_sub" ++ (splitext source_video_path).2

/-- `cut_video` lines 146-147: `filename, file_extension = video_path.rsplit('.', 1)`
then `f"{filename}_output.{file_extension}"`; `none` models the
`ValueError` raised when the path holds no dot. -/
def cut_output_path (video_path : String) : Option String :=
  (rsplit1 '.' video_path).map fun p => p.1 ++ "_output." ++ p.2

/-! ### Segment command construction (`cut_video`, lines 124-136)

```
cmd = ['ffmpeg', '-i', video_path,
       '-ss', start,
       '-to', end if end != 'inf' else '',
       '-c:v', 'h264_nvenc',
       output_file]
if end == 'inf':
    cmd.remove('-to')
    cmd.remove('')
```

`list.remove(x)` removes the FIRST occurrence of `x`. -/

/-- Python `list.remove(x)`: drop the first occurrence of `x` (Python
raises `ValueError` when `x` is absent; in `cut_video` the removed items
are always present, so the identity fallback on absence is never hit). -/
def removeFirst (x : String) : List String → List String
  | [] => []
  | y :: ys => if y = x then ys else y :: removeFirst x ys

/-- The ffmpeg argument list `cut_video` builds for one keep-range
`(start, endT)`, writing `output_file`. -/
def segmentCmd (video_path start endT output_file : String) : List String :=
  let cmd : List String :=
    ["ffmpeg", "-i", video_path,
     "-ss", start,
     "-to", if endT ≠ "inf" then endT else "",
     "-c:v", "h264_nvenc",
     output_file]
  if endT = "inf" then removeFirst "" (removeFirst "-to" cmd) else cmd

/-- The numbered temporary segment file `f"{tmp_dir}/segment_{i}.mp4"`. -/
def segmentName (tmp_dir : String) (i : ℕ) : String :=
  tmp_dir ++ "/segment_" ++ toString i ++ ".mp4"

/-! ### Observable control flow

The four library functions are embedded as trace-producing functions over
an environment answering `shutil.which('ffmpeg')`, `os.path.isfile` and
subprocess return codes.  A function's outcome is its event trace plus
either a normal return (`none`) or the Python exception it raises. -/

/-- The Python exceptions the library can raise. -/
inductive PyExc : Type
  | keyError
  | runtimeError
  | calledProcessError (returncode : ℕ)
  | attributeError
  | valueError
  | indexError
  | fileNotFoundError
deriving DecidableEq, Repr

/-- Observable events, in program order. -/
inductive Event : Type
  | whichCheck (found : Bool)                  -- shutil.which('ffmpeg')
  | checkFiles (files : List String)           -- all(os.path.isfile(f) ...)
  | writeFile (path : String)                  -- open(path, 'w') ... write
  | removeFile (path : String)                 -- os.remove(path)
  | runProc (cmd : List String) (returncode : ℕ)  -- subprocess.run, tool found
  | spawnFail (cmd : List String)              -- subprocess.run, tool missing
  | printCmd (cmd : List String)               -- print(ffmpeg_command)
  | printMsg (msg : String)                    -- print(...)
deriving DecidableEq, Repr

/-- The execution environment. -/
structure Env : Type where
  ffmpeg : Bool                 -- is 'ffmpeg' on the search path?
  isFile : String → Bool       -- os.path.isfile
  exit : List String → ℕ      -- return code of a given argv when spawned
  tmp_dir : String              -- name tempfile.TemporaryDirectory yields

/-- Trace plus normal return (`none`) or raised exception (`some e`). -/
structure Outcome : Type where
  trace : List Event
  result : Option PyExc
deriving DecidableEq, Repr

/-- `subprocess.run(cmd, check=True)`: `FileNotFoundError` when the tool
is not on the path, `CalledProcessError` on a nonzero return code. -/
def runCheck (env : Env) (cmd : List String) : Event × Option PyExc :=
  if env.ffmpeg then
    (Event.runProc cmd (env.exit cmd),
     if env.exit cmd = 0 then none else some (PyExc.calledProcessError (env.exit cmd)))
  else (Event.spawnFail cmd, some PyExc.fileNotFoundError)

/-- The `operation_definitions` dict of `apply_video_effect` (lines 35-64),
in source order (keys are distinct, so association-list lookup agrees with
the Python dict). -/
def operation_definitions : List (String × String) :=
  [("hflip", "hflip"),
   ("vflip", "vflip"),
   ("180rotate", "rotate=180*PI/180"),
   ("90clockwise", "rotate=90*PI/180"),
   ("90counterclk", "rotate=-90*PI/180"),
   ("scalehd", "scale=-1:1080"),
   ("scalesd", "scale=-1:480"),
   ("scalecustom", "scale={width}:{height}"),
   ("crop16x9", "crop=iw*16/9:ih*(16/9)*(iw/iw)"),
   ("crop4x3", "crop=iw*4/3:ih*(4/3)*(iw/iw)"),
   ("cropcustom", "crop={width}:{height}:{x}:{y}"),
   ("pad16x9", "pad=(iw*16/9):ih:(ow-iw)/2:(oh-ih)/2:color=black"),
   ("pad4x3", "pad=(iw*4/3):ih:(ow-iw)/2:(oh-ih)/2:color=black"),
   ("padcustom", "pad={width}:{height}:{x}:{y}:color={color}"),
   ("grayscale", "hue=s=0"),
   ("invert", "negate"),
   ("blur", "boxblur=2:2")]

/-- `apply_video_effect` (lines 10-97): validate the operation (KeyError),
check for ffmpeg (RuntimeError), build and print the command, run it; a
`CalledProcessError` is printed and re-raised. -/
def apply_video_effect (env : Env)
    (video_path : String) (operation : String := "hflip")
    (preset : String := "fast") (audio_codec : String := "aac") : Outcome :=
  match operation_definitions.lookup operation with
  | none => ⟨[], some PyExc.keyError⟩
  | some filt =>
    if env.ffmpeg then
      let cmd : List String :=
        ["ffmpeg", "-i", video_path,
         "-vf", filt,
         "-c:a", audio_codec,
         "-c:v", "h264_nvenc",
         "-preset", preset,
         effect_output_path video_path operation]
      let rc := env.exit cmd
      if rc = 0 then
        ⟨[Event.whichCheck true, Event.printCmd cmd, Event.runProc cmd rc], none⟩
      else
        ⟨[Event.whichCheck true, Event.printCmd cmd, Event.runProc cmd rc,
          Event.printMsg ("FFmpeg execution failed with return code " ++ toString rc)],
         some (PyExc.calledProcessError rc)⟩
    else ⟨[Event.whichCheck false], some PyExc.runtimeError⟩

/-- The segment-generation loop of `cut_video` (lines 123-137), starting at
index `i`: run one ffmpeg invocation per keep-range, abort on the first
exception, collect the written segment file names. -/
def run_segments (env : Env) (video_path : String) :
    List (String × String) → ℕ → List Event × Option PyExc × List String
  | [], _ => ([], none, [])
  | (s, e) :: rest, i =>
      let outFile := segmentName env.tmp_dir i
      let step := runCheck env (segmentCmd video_path s e outFile)
      match step.2 with
      | some ex => ([step.1], some ex, [])
      | none =>
          let cont := run_segments env video_path rest (i + 1)
          (step.1 :: cont.1, cont.2.1, outFile :: cont.2.2)

/-- `cut_video` (lines 99-157): ffmpeg check, keep-range inversion, one
invocation per keep-range, concat manifest write, output-path derivation
(`ValueError` when the path holds no dot), final concat invocation. -/
def cut_video (env : Env) (video_path : String)
    (cutoff_ranges : List (String × String)) : Outcome :=
  if env.ffmpeg then
    match cutoff_ranges with
    | [] => ⟨[Event.whichCheck true], some PyExc.indexError⟩
    | _ :: _ =>
      let keeps := cut_keep_ranges cutoff_ranges
      let seg := run_segments env video_path keeps 0
      match seg.2.1 with
      | some ex => ⟨Event.whichCheck true :: seg.1, some ex⟩
      | none =>
        let concatFile := env.tmp_dir ++ "/concat.txt"
        match cut_output_path video_path with
        | none =>
            ⟨Event.whichCheck true :: seg.1 ++ [Event.writeFile concatFile],
             some PyExc.valueError⟩
        | some outPath =>
          let ccmd : List String :=
            ["ffmpeg", "-f", "concat", "-safe", "0", "-i", concatFile,
             "-c:v", "h264_nvenc", "-c:a", "copy", outPath]
          let rc := env.exit ccmd
          if rc = 0 then
            ⟨Event.whichCheck true :: seg.1 ++
              [Event.writeFile concatFile, Event.runProc ccmd rc,
               Event.printMsg ("Video with cut ranges has been saved to: " ++ outPath)],
             none⟩
          else
            ⟨Event.whichCheck true :: seg.1 ++
              [Event.writeFile concatFile, Event.runProc ccmd rc],
             some (PyExc.calledProcessError rc)⟩
  else ⟨[Event.whichCheck false], some PyExc.runtimeError⟩

/-- `extract_sub_video` (lines 159-198): ffmpeg check, output path, then
`end_time.lower()` — an `AttributeError` when `end_time is None` —, one
invocation, success message.  A nonzero exit propagates uncaught. -/
def extract_sub_video (env : Env) (source_video_path : String)
    (start_time : String) (end_time : Option String := some "inf") : Outcome :=
  if env.ffmpeg then
    match end_time with
    | none => ⟨[Event.whichCheck true], some PyExc.attributeError⟩
    | some et =>
      let outPath := sub_output_path source_video_path
      let cmd : List String :=
        ["ffmpeg", "-i", source_video_path, "-ss", start_time] ++
        (if et.toLower ≠ "inf" then ["-to", et] else []) ++
        ["-c:v", "h264_nvenc", "-c:a", "copy", outPath]
      let step := runCheck env cmd
      match step.2 with
      | some ex => ⟨[Event.whichCheck true, step.1], some ex⟩
      | none =>
          ⟨[Event.whichCheck true, step.1,
            Event.printMsg ("Sub-video extracted and saved to: " ++ outPath)], none⟩
  else ⟨[Event.whichCheck false], some PyExc.runtimeError⟩

/-- `merge_videos` (lines 200-268): no ffmpeg availability check; empty
input list and missing input files each print a message and return
normally; the manifest `video_list.txt` is written, the command run; a
`CalledProcessError` is caught and only printed (NOT re-raised); any other
exception propagates; the `finally` block removes the manifest. -/
def merge_videos (env : Env) (video_files : List String) (output_file : String)
    (concate_only : Bool := true) (preset : String := "p1")
    (audio_codec : String := "aac") (fps : ℕ := 30)
    (bitrate : String := "8M") : Outcome :=
  if video_files.isEmpty then ⟨[Event.printMsg "No video files provided."], none⟩
  else if ¬ video_files.all env.isFile then
    ⟨[Event.checkFiles video_files,
      Event.printMsg "One or more input files do not exist."], none⟩
  else
    let list_file := "video_list.txt"
    let cmd : List String :=
      if concate_only then
        ["ffmpeg", "-f", "concat", "-safe", "0", "-i", list_file,
         "-c", "copy", output_file]
      else
        ["ffmpeg", "-f", "concat", "-safe", "0", "-i", list_file,
         "-c:v", "h264_nvenc", "-preset", preset, "-c:a", audio_codec,
         "-b:a", "128k", "-movflags", "+faststart", "-r", toString fps,
         "-b:v", bitrate, output_file]
    let pre := [Event.checkFiles video_files, Event.writeFile list_file]
    let step := runCheck env cmd
    match step.2 with
    | none =>
        ⟨pre ++ [step.1,
           Event.printMsg ("Videos merged successfully to: " ++ output_file),
           Event.removeFile list_file], none⟩
    | some (PyExc.calledProcessError _) =>
        ⟨pre ++ [step.1, Event.printMsg "An error occurred",
           Event.removeFile list_file], none⟩
    | some ex =>
        ⟨pre ++ [step.1, Event.removeFile list_file], some ex⟩

/-! ### Concrete environments used to instantiate the theorems -/

/-- ffmpeg on the path, every file present, every invocation succeeds. -/
def envOK : Env := ⟨true, fun _ => true, fun _ => 0, "tmp"⟩

/-- ffmpeg on the path, every file present, every invocation exits with 1. -/
def envRC1 : Env := ⟨true, fun _ => true, fun _ => 1, "tmp"⟩

/-- ffmpeg absent from the path, every file present. -/
def envNoTool : Env := ⟨false, fun _ => true, fun _ => 0, "tmp"⟩

/-! ### Claims -/

/-- Claim C6: for a single cutoff range starting at `00:00:00.00` whose end
is a concrete timestamp (not `'inf'`), the inversion in `cut_video`
produces exactly one keep-range, `(cutoff.end, 'inf')`. -/
theorem C6_single_range_from_zero (e : String) (he : e ≠ "inf") :
    cut_keep_ranges [("00:00:00.00", e)] = [(e, "inf")] := by
  unfold cut_keep_ranges keep_ranges keepTail keepTail
  simp [he]

/-- Witness for C6 at the concrete end timestamp `00:02:05.00`. -/
theorem C6_single_range_from_zero_witness :
    cut_keep_ranges [("00:00:00.00", "00:02:05.00")] = [("00:02:05.00", "inf")] :=
  C6_single_range_from_zero "00:02:05.00" (by decide)

/-- Claim C7: when the first cutoff does not start at `00:00:00.00`, the
first keep-range produced by `cut_video`'s inversion is
`(00:00:00.00, cutoff[0].start)`; and on the cutoff list
`[("00:01:50.00","00:02:05.00")]` the keep list is
`[("00:00:00.00","00:01:50.00"), ("00:02:05.00","inf")]`. -/
theorem C7_leading_keep_range (s e : String) (rest : List (String × String))
    (hs : s ≠ "00:00:00.00") :
    (cut_keep_ranges ((s, e) :: rest)).head? = some ("00:00:00.00", s) ∧
    cut_keep_ranges [("00:01:50.00", "00:02:05.00")] =
      [("00:00:00.00", "00:01:50.00"), ("00:02:05.00", "inf")] := by
  constructor
  · unfold cut_keep_ranges keep_ranges
    simp [hs]
  · decide

/-- Witness for C7 at the spec's example cutoff list. -/
theorem C7_leading_keep_range_witness :
    (cut_keep_ranges [("00:01:50.00", "00:02:05.00")]).head? =
      some ("00:00:00.00", "00:01:50.00") ∧
    cut_keep_ranges [("00:01:50.00", "00:02:05.00")] =
      [("00:00:00.00", "00:01:50.00"), ("00:02:05.00", "inf")] :=
  C7_leading_keep_range "00:01:50.00" "00:02:05.00" [] (by decide)

/-- Claim C5: an operation name outside `operation_definitions` makes
`apply_video_effect` raise `KeyError` with an empty event trace (so before
any subprocess — indeed before anything observable); a supported name is
never rejected with `KeyError`. -/
theorem C5_operation_validation (env : Env)
    (video_path preset audio_codec operation : String) :
    (operation_definitions.lookup operation = none →
      apply_video_effect env video_path operation preset audio_codec =
        ⟨[], some PyExc.keyError⟩) ∧
    (∀ filt, operation_definitions.lookup operation = some filt →
      (apply_video_effect env video_path operation preset audio_codec).result ≠
        some PyExc.keyError) := by
  constructor
  · intro h
    unfold apply_video_effect
    rw [h]
  · intro filt h
    unfold apply_video_effect
    rw [h]
    dsimp only
    split
    · split <;> simp
    · simp

/-- Witness for C5: `"sharpen"` is rejected with `KeyError` and an empty
trace; `"hflip"` is not rejected. -/
theorem C5_operation_validation_witness :
    apply_video_effect envOK "a.mp4" "sharpen" "fast" "aac" =
      ⟨[], some PyExc.keyError⟩ ∧
    (apply_video_effect envOK "a.mp4" "hflip" "fast" "aac").result ≠
      some PyExc.keyError :=
  ⟨(C5_operation_validation envOK "a.mp4" "fast" "aac" "sharpen").1 (by decide),
   (C5_operation_validation envOK "a.mp4" "fast" "aac" "hflip").2 "hflip" (by decide)⟩

/-- Claim C8: merging an empty file list prints a no-op message and
returns normally, with no tool invocation and no file written. -/
theorem C8_merge_empty_noop (env : Env) (output_file : String)
    (concate_only : Bool) (preset audio_codec : String) (fps : ℕ)
    (bitrate : String) :
    merge_videos env [] output_file concate_only preset audio_codec fps bitrate =
      ⟨[Event.printMsg "No video files provided."], none⟩ :=
  rfl

/-- Claim C10: `extract_sub_video` with `end_time = None` passes the
ffmpeg availability check and then raises `AttributeError`
(`None.lower()`), with no subprocess in the trace; and the function
returns normally only when `end_time` is an actual string. -/
theorem C10_end_time_none_attribute_error (env : Env)
    (source_video_path start_time : String) :
    (env.ffmpeg = true →
      extract_sub_video env source_video_path start_time none =
        ⟨[Event.whichCheck true], some PyExc.attributeError⟩) ∧
    (∀ end_time : Option String,
      (extract_sub_video env source_video_path start_time end_time).result = none →
      ∃ s, end_time = some s) := by
  constructor
  · intro hf
    unfold extract_sub_video
    rw [hf]
    rfl
  · intro et h
    unfold extract_sub_video at h
    by_cases hf : env.ffmpeg
    · rw [if_pos hf] at h
      match et with
      | none => simp at h
      | some s => exact ⟨s, rfl⟩
    · rw [if_neg hf] at h
      simp at h

/-- Witness for C10: concrete `AttributeError` outcome, and a normal
completion forcing the string form of `end_time`. -/
theorem C10_end_time_none_attribute_error_witness :
    extract_sub_video envOK "a.mp4" "00:00:01.00" none =
      ⟨[Event.whichCheck true], some PyExc.attributeError⟩ ∧
    ∃ s, (some "inf" : Option String) = some s :=
  ⟨(C10_end_time_none_attribute_error envOK "a.mp4" "00:00:01.00").1 rfl,
   (C10_end_time_none_attribute_error envOK "a.mp4" "00:00:01.00").2
     (some "inf") (by decide)⟩

/-- With ffmpeg on the path and every invocation exiting with code 1,
`subprocess.run(..., check=True)` yields a `CalledProcessError`. -/
theorem runCheck_exit_one (env : Env) (hf : env.ffmpeg = true)
    (hE : ∀ c, env.exit c = 1) (cmd : List String) :
    runCheck env cmd = (Event.runProc cmd 1, some (PyExc.calledProcessError 1)) := by
  unfold runCheck
  rw [hf, hE cmd]
  simp

/-- Claim C2 fails on the code: in `merge_videos` a nonzero exit status is
NOT propagated — the `CalledProcessError` is caught and merely printed.
Concretely, with every invocation exiting with status 1, merging one
existing file runs a subprocess that returns 1 yet the call returns
normally (`result = none`). -/
theorem C2_counterexample :
    (merge_videos envRC1 ["a.mp4"] "o.mp4" true "p1" "aac" 30 "8M").result = none ∧
    Event.runProc
        ["ffmpeg", "-f", "concat", "-safe", "0", "-i", "video_list.txt",
         "-c", "copy", "o.mp4"] 1
      ∈ (merge_videos envRC1 ["a.mp4"] "o.mp4" true "p1" "aac" 30 "8M").trace := by
  constructor
  · rfl
  · decide

/-- Claim C2 amended: a nonzero exit status from the external tool is
propagated as `CalledProcessError` by effect application, cut, and
sub-clip extraction; in the merge path the `CalledProcessError` is caught
and only a diagnostic is printed — the call returns normally. -/
theorem C2_amended (env : Env)
    (video_path operation preset audio_codec : String)
    (source_video_path start_time end_time output_file : String)
    (cutoffs : List (String × String)) (files : List String)
    (concate_only : Bool) (fps : ℕ) (bitrate : String)
    (hf : env.ffmpeg = true) (hE : ∀ c, env.exit c = 1)
    (filt : String) (hop : operation_definitions.lookup operation = some filt)
    (hdot : cut_output_path video_path ≠ none)
    (hcut : cutoffs ≠ [])
    (hfiles : files ≠ []) (hex : files.all env.isFile = true) :
    (apply_video_effect env video_path operation preset audio_codec).result =
      some (PyExc.calledProcessError 1) ∧
    (cut_video env video_path cutoffs).result =
      some (PyExc.calledProcessError 1) ∧
    (extract_sub_video env source_video_path start_time (some end_time)).result =
      some (PyExc.calledProcessError 1) ∧
    (merge_videos env files output_file concate_only preset audio_codec
        fps bitrate).result = none ∧
    Event.printMsg "An error occurred" ∈
      (merge_videos env files output_file concate_only preset audio_codec
        fps bitrate).trace := by
  refine ⟨?_, ?_, ?_, ?_, ?_⟩
  · unfold apply_video_effect
    rw [hop, hf]
    simp [hE]
  · match cutoffs, hcut with
    | c :: rest, _ =>
      unfold cut_video
      rw [if_pos hf]
      dsimp only
      rcases hk : cut_keep_ranges (c :: rest) with _ | ⟨⟨ks_, ke⟩, ks⟩
      · obtain ⟨outP, houtP⟩ := Option.ne_none_iff_exists'.mp hdot
        simp only [hk, run_segments, houtP, hE]
        simp
      · simp only [hk, run_segments, runCheck_exit_one env hf hE]
  · unfold extract_sub_video
    rw [if_pos hf]
    simp only [runCheck_exit_one env hf hE]
  · unfold merge_videos
    rw [if_neg (by simp [hfiles]), if_neg (by simp [hex])]
    simp only [runCheck_exit_one env hf hE]
  · unfold merge_videos
    rw [if_neg (by simp [hfiles]), if_neg (by simp [hex])]
    simp only [runCheck_exit_one env hf hE]
    simp

/-- Witness for C2's amended claim, at an all-failures environment. -/
theorem C2_amended_witness :
    (apply_video_effect envRC1 "a.mp4" "hflip" "fast" "aac").result =
      some (PyExc.calledProcessError 1) ∧
    (cut_video envRC1 "a.mp4" [("00:01:50.00", "00:02:05.00")]).result =
      some (PyExc.calledProcessError 1) ∧
    (extract_sub_video envRC1 "a.mp4" "00:00:01.00" (some "inf")).result =
      some (PyExc.calledProcessError 1) ∧
    (merge_videos envRC1 ["a.mp4"] "o.mp4" true "fast" "aac" 30 "8M").result =
      none ∧
    Event.printMsg "An error occurred" ∈
      (merge_videos envRC1 ["a.mp4"] "o.mp4" true "fast" "aac" 30 "8M").trace :=
  C2_amended envRC1 "a.mp4" "hflip" "fast" "aac" "a.mp4" "00:00:01.00" "inf"
    "o.mp4" [("00:01:50.00", "00:02:05.00")] ["a.mp4"] true 30 "8M"
    rfl (fun _ => rfl) "hflip" (by decide) (by decide) (by decide) (by decide) rfl

/-- Claim C3 fails on the code: `merge_videos` never checks for the
external tool; with ffmpeg absent it still checks the input files and
writes the manifest (file I/O), then fails at subprocess spawn with
`FileNotFoundError` instead of reporting absence up front. -/
theorem C3_counterexample :
    Event.writeFile "video_list.txt" ∈
      (merge_videos envNoTool ["a.mp4"] "o.mp4" true "p1" "aac" 30 "8M").trace ∧
    (merge_videos envNoTool ["a.mp4"] "o.mp4" true "p1" "aac" 30 "8M").result ≠
      some PyExc.runtimeError := by
  constructor
  · decide
  · decide

/-- Claim C3 amended: `apply_video_effect` (once the operation name is
accepted), `cut_video` and `extract_sub_video` detect ffmpeg's absence and
raise `RuntimeError` with nothing but the availability check in their
trace — no file I/O, no subprocess; `merge_videos` performs no such check:
it does file I/O (existence checks, manifest write) and only fails when
the subprocess spawn raises `FileNotFoundError`. -/
theorem C3_amended (env : Env)
    (video_path operation preset audio_codec : String)
    (source_video_path start_time output_file : String)
    (end_time : Option String)
    (cutoffs : List (String × String)) (files : List String)
    (concate_only : Bool) (fps : ℕ) (bitrate : String)
    (hf : env.ffmpeg = false) :
    (∀ filt, operation_definitions.lookup operation = some filt →
      apply_video_effect env video_path operation preset audio_codec =
        ⟨[Event.whichCheck false], some PyExc.runtimeError⟩) ∧
    cut_video env video_path cutoffs =
      ⟨[Event.whichCheck false], some PyExc.runtimeError⟩ ∧
    extract_sub_video env source_video_path start_time end_time =
      ⟨[Event.whichCheck false], some PyExc.runtimeError⟩ ∧
    (files ≠ [] → files.all env.isFile = true →
      Event.writeFile "video_list.txt" ∈
        (merge_videos env files output_file concate_only preset audio_codec
          fps bitrate).trace ∧
      (merge_videos env files output_file concate_only preset audio_codec
          fps bitrate).result = some PyExc.fileNotFoundError) := by
  refine ⟨?_, ?_, ?_, ?_⟩
  · intro filt hop
    unfold apply_video_effect
    rw [hop]
    simp [hf]
  · unfold cut_video
    simp [hf]
  · unfold extract_sub_video
    simp [hf]
  · intro hfiles hex
    unfold merge_videos
    rw [if_neg (by simp [hfiles]), if_neg (by simp [hex])]
    have hrc : ∀ cmd, runCheck env cmd =
        (Event.spawnFail cmd, some PyExc.fileNotFoundError) := by
      intro cmd
      unfold runCheck
      rw [hf]
      simp
    simp only [hrc]
    simp

/-- Witness for C3's amended claim, with ffmpeg absent. -/
theorem C3_amended_witness :
    apply_video_effect envNoTool "a.mp4" "hflip" "fast" "aac" =
      ⟨[Event.whichCheck false], some PyExc.runtimeError⟩ ∧
    cut_video envNoTool "a.mp4" [("00:01:50.00", "00:02:05.00")] =
      ⟨[Event.whichCheck false], some PyExc.runtimeError⟩ ∧
    extract_sub_video envNoTool "a.mp4" "00:00:01.00" (some "inf") =
      ⟨[Event.whichCheck false], some PyExc.runtimeError⟩ ∧
    Event.writeFile "video_list.txt" ∈
      (merge_videos envNoTool ["a.mp4"] "o.mp4" true "fast" "aac" 30 "8M").trace ∧
    (merge_videos envNoTool ["a.mp4"] "o.mp4" true "fast" "aac" 30 "8M").result =
      some PyExc.fileNotFoundError := by
  have h := C3_amended envNoTool "a.mp4" "hflip" "fast" "aac" "a.mp4"
    "00:00:01.00" "o.mp4" (some "inf") [("00:01:50.00", "00:02:05.00")]
    ["a.mp4"] true 30 "8M" rfl
  exact ⟨h.1 "hflip" (by decide), h.2.1, h.2.2.1,
    (h.2.2.2 (by decide) rfl).1, (h.2.2.2 (by decide) rfl).2⟩

/-- `splitLast` really splits at an occurrence: the two pieces rejoin,
around the split character, to the original list. -/
theorem splitLast_eq {c : Char} : ∀ {l a b : List Char},
    splitLast c l = some (a, b) → l = a ++ c :: b := by
  intro l
  induction l with
  | nil => intro a b h; simp [splitLast] at h
  | cons x xs ih =>
    intro a b h
    unfold splitLast at h
    cases hx : splitLast c xs with
    | some p =>
      obtain ⟨p1, p2⟩ := p
      rw [hx] at h
      simp only [Option.some.injEq, Prod.mk.injEq] at h
      obtain ⟨h1, h2⟩ := h
      subst h2
      rw [← h1]
      simpa using ih hx
    | none =>
      rw [hx] at h
      by_cases hc : x = c
      · rw [if_pos hc] at h
        simp only [Option.some.injEq, Prod.mk.injEq] at h
        obtain ⟨h1, h2⟩ := h
        subst h2
        rw [← h1, hc]
        rfl
      · rw [if_neg hc] at h
        exact absurd h (by simp)

/-- `os.path.splitext` is a split of its input: root and extension
concatenate back to the original path. -/
theorem splitextL_spec (p : List Char) :
    (splitextL p).1 ++ (splitextL p).2 = p := by
  unfold splitextL
  cases hs : splitLast '.' p with
  | none => simp
  | some q =>
    obtain ⟨bef, aft⟩ := q
    have hp := splitLast_eq hs
    by_cases h1 : '/' ∈ aft
    · simp [h1]
    · by_cases h2 : (afterLastSep bef).all (fun ch => ch = '.')
      · simp [h1, h2]
      · simp only [h1, h2, if_neg, if_false]
        simp [hp]

/-- Claim C4: for an input path that has an extension, each operation's
derived output path is the input path with the operation's fixed suffix
(`_<operation>`, `_sub`, `_output`) inserted before that extension, which
is preserved: the splitext root and extension rejoin to the input, and
all three output paths are `root ++ suffix ++ ext` (for `cut_video`, the
`rsplit`-based derivation agrees with the splitext-based convention). -/
theorem C4_output_path_convention (p operation : String)
    (hext : (splitext p).2 ≠ "") :
    (splitext p).1 ++ (splitext p).2 = p ∧
    effect_output_path p operation =
      (splitext p).1 ++ "_" ++ operation ++ (splitext p).2 ∧
    sub_output_path p = (splitext p).1 ++ "_sub" ++ (splitext p).2 ∧
    cut_output_path p =
      some ((splitext p).1 ++ "_output" ++ (splitext p).2) := by
  refine ⟨?_, rfl, rfl, ?_⟩
  · show ((splitextL p.toList).1 ++ (splitextL p.toList).2).asString = p
    rw [splitextL_spec]
    rfl
  · unfold cut_output_path rsplit1
    cases hs : splitLast '.' p.toList with
    | none =>
      exfalso
      apply hext
      show ((splitextL p.toList).2).asString = ""
      unfold splitextL
      rw [hs]
      rfl
    | some q =>
      obtain ⟨bef, aft⟩ := q
      by_cases h1 : '/' ∈ aft
      · exfalso
        apply hext
        show ((splitextL p.toList).2).asString = ""
        unfold splitextL
        rw [hs]
        simp only [h1, if_neg, if_false, ite_false]
        rfl
      · by_cases h2 : (afterLastSep bef).all (fun ch => ch = '.')
        · exfalso
          apply hext
          show ((splitextL p.toList).2).asString = ""
          unfold splitextL
          rw [hs]
          simp only [h1, h2, if_true, ite_true, if_neg, if_false, ite_false]
          rfl
        · have hsp : splitextL p.toList = (bef, '.' :: aft) := by
            unfold splitextL
            rw [hs]
            simp [h1, h2]
          simp only [Option.map_some']
          congr 1
          show bef.asString ++ "_output." ++ aft.asString =
            (splitext p).1 ++ "_output" ++ (splitext p).2
          have hx1 : (splitext p).1 = bef.asString := by
            show ((splitextL p.toList).1).asString = bef.asString
            rw [hsp]
          have hx2 : (splitext p).2 = ('.' :: aft).asString := by
            show ((splitextL p.toList).2).asString = ('.' :: aft).asString
            rw [hsp]
          rw [hx1, hx2]
          show ((bef ++ "_output.".data) ++ aft).asString =
            ((bef ++ "_output".data) ++ ('.' :: aft)).asString
          congr 1
          rw [List.append_assoc, List.append_assoc]
          rfl

/-- Witness for C4 at the path `a/b.mp4` and the operation `hflip`. -/
theorem C4_output_path_convention_witness :
    (splitext "a/b.mp4").1 ++ (splitext "a/b.mp4").2 = "a/b.mp4" ∧
    effect_output_path "a/b.mp4" "hflip" =
      (splitext "a/b.mp4").1 ++ "_" ++ "hflip" ++ (splitext "a/b.mp4").2 ∧
    sub_output_path "a/b.mp4" =
      (splitext "a/b.mp4").1 ++ "_sub" ++ (splitext "a/b.mp4").2 ∧
    cut_output_path "a/b.mp4" =
      some ((splitext "a/b.mp4").1 ++ "_output" ++ (splitext "a/b.mp4").2) :=
  C4_output_path_convention "a/b.mp4" "hflip" (by decide)

/-- When the keep-range end is a concrete timestamp, the built argument
list carries `-to end` and nothing is removed. -/
theorem segmentCmd_not_inf (vp s e out : String) (he : e ≠ "inf") :
    segmentCmd vp s e out =
      ["ffmpeg", "-i", vp, "-ss", s, "-to", e, "-c:v", "h264_nvenc", out] := by
  unfold segmentCmd
  simp [he]

/-- When the keep-range end is `'inf'`, `cmd.remove('-to')` and
`cmd.remove('')` drop exactly the trim flag and its placeholder value
(provided the path and start timestamp are not themselves the literals
`'-to'` or `''`, which `list.remove` would hit first). -/
theorem segmentCmd_inf (vp s out : String)
    (hvp1 : vp ≠ "-to") (hvp2 : vp ≠ "") (hs1 : s ≠ "-to") (hs2 : s ≠ "") :
    segmentCmd vp s "inf" out =
      ["ffmpeg", "-i", vp, "-ss", s, "-c:v", "h264_nvenc", out] := by
  unfold segmentCmd removeFirst removeFirst removeFirst removeFirst removeFirst removeFirst removeFirst
  simp [hvp1, hvp2, hs1, hs2]

/-- When every invocation succeeds, the segment loop of `cut_video` runs
exactly one subprocess per keep-range, in order, writing
`segment_<index>.mp4` files numbered from the starting index. -/
theorem run_segments_success (env : Env) (hf : env.ffmpeg = true)
    (hE : ∀ c, env.exit c = 0) (vp : String) :
    ∀ (keeps : List (String × String)) (i : ℕ),
    run_segments env vp keeps i =
      ((keeps.enumFrom i).map (fun q =>
        Event.runProc (segmentCmd vp q.2.1 q.2.2 (segmentName env.tmp_dir q.1)) 0),
       none,
       (keeps.enumFrom i).map (fun q => segmentName env.tmp_dir q.1)) := by
  intro keeps
  induction keeps with
  | nil => intro i; rfl
  | cons k rest ih =>
    intro i
    obtain ⟨s, e⟩ := k
    unfold run_segments
    have hrc : runCheck env (segmentCmd vp s e (segmentName env.tmp_dir i)) =
        (Event.runProc (segmentCmd vp s e (segmentName env.tmp_dir i)) 0, none) := by
      unfold runCheck
      rw [hf, hE]
      simp
    simp only [hrc, ih, List.enumFrom, List.map]

/-- Claim C9: for every keep-range `(start, end)` the ffmpeg argument list
contains the seek flag `-ss` immediately followed by `start`; it contains
`-to` followed by `end` iff `end` is not `'inf'` (for `'inf'`, both the
flag and its value are removed, leaving exactly the seek-only command);
and in the success path the loop makes exactly one invocation per
keep-range, writing the numbered temporary files `segment_<i>.mp4`.  The
hypotheses exclude the pathological inputs where the path or the start
timestamp textually equals `'-to'` or `''` and Python's
`list.remove` (first occurrence) would hit them instead of the flag. -/
theorem C9_segment_invocations (env : Env) (vp s e out : String)
    (hvp1 : vp ≠ "-to") (hvp2 : vp ≠ "") (hs1 : s ≠ "-to") (hs2 : s ≠ "") :
    List.IsInfix ["-ss", s] (segmentCmd vp s e out) ∧
    (e ≠ "inf" → List.IsInfix ["-to", e] (segmentCmd vp s e out)) ∧
    (e = "inf" → segmentCmd vp s e out =
      ["ffmpeg", "-i", vp, "-ss", s, "-c:v", "h264_nvenc", out]) ∧
    (e = "inf" → out ≠ "-to" → "-to" ∉ segmentCmd vp s e out) ∧
    (env.ffmpeg = true → (∀ c, env.exit c = 0) →
      ∀ (keeps : List (String × String)) (i : ℕ),
      run_segments env vp keeps i =
        ((keeps.enumFrom i).map (fun q =>
          Event.runProc (segmentCmd vp q.2.1 q.2.2 (segmentName env.tmp_dir q.1)) 0),
         none,
         (keeps.enumFrom i).map (fun q => segmentName env.tmp_dir q.1))) := by
  refine ⟨?_, ?_, ?_, ?_, ?_⟩
  · by_cases he : e = "inf"
    · subst he
      rw [segmentCmd_inf vp s out hvp1 hvp2 hs1 hs2]
      exact ⟨["ffmpeg", "-i", vp], ["-c:v", "h264_nvenc", out], rfl⟩
    · rw [segmentCmd_not_inf vp s e out he]
      exact ⟨["ffmpeg", "-i", vp], ["-to", e, "-c:v", "h264_nvenc", out], rfl⟩
  · intro he
    rw [segmentCmd_not_inf vp s e out he]
    exact ⟨["ffmpeg", "-i", vp, "-ss", s], ["-c:v", "h264_nvenc", out], rfl⟩
  · intro he
    subst he
    exact segmentCmd_inf vp s out hvp1 hvp2 hs1 hs2
  · intro he hout
    subst he
    rw [segmentCmd_inf vp s out hvp1 hvp2 hs1 hs2]
    simp [hvp1, hs1, hout, Ne.symm]
  · intro hf hE
    exact run_segments_success env hf hE vp

/-- Witness for C9: the seek-only command for an `'inf'` end, the seek
flag placement, and one numbered invocation for a one-range keep list. -/
theorem C9_segment_invocations_witness :
    List.IsInfix ["-ss", "00:02:05.00"]
      (segmentCmd "a.mp4" "00:02:05.00" "inf" "tmp/segment_0.mp4") ∧
    segmentCmd "a.mp4" "00:02:05.00" "inf" "tmp/segment_0.mp4" =
      ["ffmpeg", "-i", "a.mp4", "-ss", "00:02:05.00", "-c:v", "h264_nvenc",
       "tmp/segment_0.mp4"] ∧
    run_segments envOK "a.mp4" [("00:00:00.00", "00:01:50.00")] 0 =
      ([Event.runProc
          (segmentCmd "a.mp4" "00:00:00.00" "00:01:50.00" (segmentName "tmp" 0)) 0],
       none, [segmentName "tmp" 0]) := by
  have h := C9_segment_invocations envOK "a.mp4" "00:02:05.00" "inf"
    "tmp/segment_0.mp4" (by decide) (by decide) (by decide) (by decide)
  refine ⟨h.1, h.2.2.1 rfl, ?_⟩
  have h5 := h.2.2.2.2 rfl (fun _ => rfl) [("00:00:00.00", "00:01:50.00")] 0
  rw [h5]
  rfl

/-- `rangesUnion` distributes over list append. -/
theorem rangesUnion_append (l1 l2 : List (WithTop ℕ × WithTop ℕ)) :
    rangesUnion (l1 ++ l2) = rangesUnion l1 ∪ rangesUnion l2 := by
  induction l1 with
  | nil => simp [rangesUnion]
  | cons r rs ih => simp [rangesUnion, ih, Set.union_assoc]

/-- In a sorted (chained) cutoff list, every range starts no earlier than
the first range's start. -/
theorem cutoff_start_lb :
    ∀ (l : List (WithTop ℕ × WithTop ℕ)) (a b : WithTop ℕ),
    (∀ r ∈ (a, b) :: l, r.1 ≤ r.2) →
    List.Chain' (fun r s => r.2 ≤ s.1) ((a, b) :: l) →
    ∀ r ∈ (a, b) :: l, a ≤ r.1 := by
  intro l
  induction l with
  | nil =>
    intro a b _ _ r hr
    simp at hr
    simp [hr]
  | cons k rest ih =>
    intro a b hord hchain r hr
    obtain ⟨a2, b2⟩ := k
    have hab : a ≤ b := hord (a, b) (by simp)
    have hba2 : b ≤ a2 := (List.chain'_cons.mp hchain).1
    have htail := ih a2 b2 (fun r hr => hord r (List.mem_cons_of_mem _ hr))
      (List.chain'_cons.mp hchain).2
    rcases List.mem_cons.mp hr with h | h
    · simp [h]
    · exact le_trans (le_trans hab hba2) (htail r h)

/-- An instant below a common lower bound of all starts lies in no range. -/
theorem not_mem_rangesUnion_of_lt :
    ∀ (l : List (WithTop ℕ × WithTop ℕ)) (c : WithTop ℕ) (t : ℕ),
    (∀ r ∈ l, c ≤ r.1) → (t : WithTop ℕ) < c → t ∉ rangesUnion l := by
  intro l
  induction l with
  | nil => intro c t _ _ h; exact h
  | cons r rs ih =>
    intro c t hlb hlt h
    rcases h with h | h
    · exact absurd (le_trans (hlb r (by simp)) h.1) (not_le.mpr hlt)
    · exact ih c t (fun r hr => hlb r (List.mem_cons_of_mem _ hr)) hlt h

/-- Every keep-range produced by the loop starts no earlier than the first
cutoff's end. -/
theorem keepTail_start_lb :
    ∀ (l : List (WithTop ℕ × WithTop ℕ)) (a b : WithTop ℕ),
    (∀ r ∈ (a, b) :: l, r.1 ≤ r.2) →
    List.Chain' (fun r s => r.2 ≤ s.1) ((a, b) :: l) →
    ∀ r ∈ keepTail ⊤ ((a, b) :: l), b ≤ r.1 := by
  intro l
  induction l with
  | nil =>
    intro a b _ _ r hr
    unfold keepTail keepTail at hr
    by_cases hb : b = (⊤ : WithTop ℕ)
    · simp [hb] at hr
    · simp [hb] at hr
      simp [hr]
  | cons k rest ih =>
    intro a b hord hchain r hr
    obtain ⟨a2, b2⟩ := k
    have hba2 : b ≤ a2 := (List.chain'_cons.mp hchain).1
    have ha2b2 : a2 ≤ b2 := hord (a2, b2) (by simp)
    have htail := ih a2 b2 (fun r hr => hord r (List.mem_cons_of_mem _ hr))
      (List.chain'_cons.mp hchain).2
    rw [show keepTail (⊤ : WithTop ℕ) ((a, b) :: (a2, b2) :: rest) =
      (if b ≠ ⊤ then [(b, a2)] else []) ++ keepTail ⊤ ((a2, b2) :: rest) from rfl] at hr
    rcases List.mem_append.mp hr with h | h
    · by_cases hb : b = (⊤ : WithTop ℕ)
      · simp [hb] at h
      · simp [hb] at h
        simp [h]
    · exact le_trans (le_trans hba2 ha2b2) (htail r h)

/-- Key lemma: above the first cutoff's start, the loop-produced
keep-ranges cover exactly the instants missed by the cutoff ranges. -/
theorem keepTail_complement :
    ∀ (l : List (WithTop ℕ × WithTop ℕ)) (a b : WithTop ℕ),
    (∀ r ∈ (a, b) :: l, r.1 ≤ r.2) →
    List.Chain' (fun r s => r.2 ≤ s.1) ((a, b) :: l) →
    (∀ r ∈ (a, b) :: l, r.1 ≠ ⊤) →
    ∀ t : ℕ, a ≤ (t : WithTop ℕ) →
    (t ∈ rangesUnion (keepTail ⊤ ((a, b) :: l)) ↔
      t ∉ rangesUnion ((a, b) :: l)) := by
  intro l
  induction l with
  | nil =>
    intro a b hord _ _ t hat
    by_cases hb : b = (⊤ : WithTop ℕ)
    · subst hb
      constructor
      · intro h
        exact absurd h (by simp [keepTail, rangesUnion])
      · intro h
        exact absurd (Or.inl ⟨hat, WithTop.coe_lt_top t⟩) h
    · constructor
      · intro h
        simp only [keepTail, hb, ne_eq, not_false_iff, if_true] at h
        rcases h with h | h
        · intro hc
          rcases hc with hc | hc
          · exact absurd hc.2 (not_lt.mpr h.1)
          · exact hc
        · exact absurd h (by simp [rangesUnion])
      · intro h
        have hbt : b ≤ (t : WithTop ℕ) := by
          by_contra hlt
          exact h (Or.inl ⟨hat, not_le.mp hlt⟩)
        simp only [keepTail, hb, ne_eq, not_false_iff, if_true]
        exact Or.inl ⟨hbt, WithTop.coe_lt_top t⟩
  | cons k rest ih =>
    intro a b hord hchain hfin t hat
    obtain ⟨a2, b2⟩ := k
    have hab : a ≤ b := hord (a, b) (by simp)
    have hba2 : b ≤ a2 := (List.chain'_cons.mp hchain).1
    have ha2b2 : a2 ≤ b2 := hord (a2, b2) (by simp [List.mem_cons])
    have ha2top : a2 ≠ (⊤ : WithTop ℕ) := hfin (a2, b2) (by simp [List.mem_cons])
    have hordT : ∀ r ∈ (a2, b2) :: rest, r.1 ≤ r.2 :=
      fun r hr => hord r (List.mem_cons_of_mem _ hr)
    have hchainT := (List.chain'_cons.mp hchain).2
    have hfinT : ∀ r ∈ (a2, b2) :: rest, r.1 ≠ ⊤ :=
      fun r hr => hfin r (List.mem_cons_of_mem _ hr)
    have hb : b ≠ (⊤ : WithTop ℕ) := by
      intro hbtop
      exact ha2top (top_le_iff.mp (hbtop ▸ hba2))
    rw [show keepTail (⊤ : WithTop ℕ) ((a, b) :: (a2, b2) :: rest) =
      (if b ≠ ⊤ then [(b, a2)] else []) ++ keepTail ⊤ ((a2, b2) :: rest) from rfl]
    rw [if_pos hb, rangesUnion_append]
    rcases lt_or_le (t : WithTop ℕ) a2 with hlt | hge
    · have h1 : t ∉ rangesUnion ((a2, b2) :: rest) :=
        not_mem_rangesUnion_of_lt _ a2 t (cutoff_start_lb rest a2 b2 hordT hchainT) hlt
      have h2 : t ∉ rangesUnion (keepTail ⊤ ((a2, b2) :: rest)) :=
        not_mem_rangesUnion_of_lt _ b2 t (keepTail_start_lb rest a2 b2 hordT hchainT)
          (lt_of_lt_of_le hlt ha2b2)
      constructor
      · intro h hc
        rcases h with h | h
        · rcases hc with hc | hc
          · rcases h with h | h
            · exact absurd hc.2 (not_lt.mpr h.1)
            · exact absurd h (by simp [rangesUnion])
          · exact h1 hc
        · exact h2 h
      · intro h
        left
        left
        refine ⟨?_, hlt⟩
        by_contra hbt
        exact h (Or.inl ⟨hat, not_le.mp hbt⟩)
    · have hiff := ih a2 b2 hordT hchainT hfinT t hge
      constructor
      · intro h hc
        rcases h with h | h
        · rcases h with h | h
          · exact absurd hge (not_le.mpr h.2)
          · exact absurd h (by simp [rangesUnion])
        · rcases hc with hc | hc
          · exact absurd hc.2 (not_lt.mpr (le_trans hba2 hge))
          · exact (hiff.mp h) hc
      · intro h
        right
        refine hiff.mpr ?_
        intro hc
        exact h (Or.inr hc)

/-- Claim C1: for a non-empty cutoff list, sorted by start with
non-overlapping ranges (chained `end ≤ next start`), each range with
`start ≤ end` and a concrete start, the keep-range list computed by
`cut_video`'s inversion covers exactly the complement of the union of the
cutoff ranges over the whole timeline `[0, end-of-video]` — in
particular, a cutoff ending at `⊤` (the `'inf'` sentinel) contributes no
trailing keep-range, and a leading keep-range appears exactly when needed
to cover `[0, first start)`.  The algorithm is the very `keep_ranges`
that `cut_keep_ranges` instantiates on the literal timestamp strings,
here instantiated on the abstract timeline `WithTop ℕ` with `0` for
`'00:00:00.00'` and `⊤` for `'inf'`. -/
theorem C1_keep_ranges_complement (cutoff : List (WithTop ℕ × WithTop ℕ))
    (hne : cutoff ≠ [])
    (hord : ∀ r ∈ cutoff, r.1 ≤ r.2)
    (hfin : ∀ r ∈ cutoff, r.1 ≠ ⊤)
    (hchain : List.Chain' (fun r s => r.2 ≤ s.1) cutoff) :
    rangesUnion (keep_ranges (0 : WithTop ℕ) ⊤ cutoff) =
      (rangesUnion cutoff)ᶜ := by
  cases cutoff with
  | nil => exact absurd rfl hne
  | cons k rest =>
    obtain ⟨a, b⟩ := k
    ext t
    simp only [Set.mem_compl_iff]
    rw [show keep_ranges (0 : WithTop ℕ) ⊤ ((a, b) :: rest) =
      (if a ≠ 0 then [((0 : WithTop ℕ), a)] else []) ++
        keepTail ⊤ ((a, b) :: rest) from rfl]
    rw [rangesUnion_append]
    rcases lt_or_le (t : WithTop ℕ) a with hlt | hge
    · have ha0 : a ≠ 0 := by
        intro h
        rw [h] at hlt
        exact absurd hlt (not_lt.mpr (zero_le _))
      have hmem : t ∈ rangesUnion (if a ≠ 0 then [((0 : WithTop ℕ), a)] else []) := by
        rw [if_pos ha0]
        exact Or.inl ⟨zero_le _, hlt⟩
      have hnot : t ∉ rangesUnion ((a, b) :: rest) :=
        not_mem_rangesUnion_of_lt _ a t (cutoff_start_lb rest a b hord hchain) hlt
      exact iff_of_true (Or.inl hmem) hnot
    · have hlead : t ∉ rangesUnion (if a ≠ 0 then [((0 : WithTop ℕ), a)] else []) := by
        split
        · intro h
          rcases h with h | h
          · exact absurd h.2 (not_lt.mpr hge)
          · exact absurd h (by simp [rangesUnion])
        · intro h
          exact absurd h (by simp [rangesUnion])
      have hiff := keepTail_complement rest a b hord hchain hfin t hge
      constructor
      · intro h
        rcases h with h | h
        · exact absurd h hlead
        · exact hiff.mp h
      · intro h
        exact Or.inr (hiff.mpr h)

/-- Witness for C1 on the single cutoff range `[2, 5)`. -/
theorem C1_keep_ranges_complement_witness :
    rangesUnion (keep_ranges (0 : WithTop ℕ) ⊤
        [(((2 : ℕ) : WithTop ℕ), ((5 : ℕ) : WithTop ℕ))]) =
      (rangesUnion [(((2 : ℕ) : WithTop ℕ), ((5 : ℕ) : WithTop ℕ))])ᶜ :=
  C1_keep_ranges_complement _ (by decide) (by decide) (by decide)
    (List.chain'_singleton _)

end AzVCutter
